import Mathlib

/-!
Verification of the magic-style design-token plugin.

The definitions below are shallow embeddings of the utility functions of the
repository: the WCAG contrast engine of the accessibility checker, the
brightness adjustment of the smart style generator, the text-style
deduplication of the text style manager, the CSS exporter, the token import
parser and file handler, the per-token edit of the token grid, and the
bulk apply-to-host loop. Host calls (the plugin API of the design tool) are
modelled by explicit parameters; JavaScript numbers on integer-valued code
paths are modelled by Int with explicit 32-bit wrapping where the source
uses bitwise operators.
-/

/-! ## Generic list and string helpers used by several embeddings -/

/-- Boolean prefix test on character lists (used to model substring search). -/
def listPrefixB : List Char → List Char → Bool
  | [], _ => true
  | _ :: _, [] => false
  | a :: as, b :: bs => a == b && listPrefixB as bs

/-- Boolean infix test on character lists. -/
def listInfixB (sub : List Char) : List Char → Bool
  | [] => listPrefixB sub []
  | b :: bs => listPrefixB sub (b :: bs) || listInfixB sub bs

/-- Model of the JavaScript expression s.includes(sub). -/
def strIncludes (s sub : String) : Bool := listInfixB sub.data s.data

/-- Model of the JavaScript expression s.toLowerCase() on the ASCII strings
the plugin feeds it (token names and paths). -/
def strToLower (s : String) : String := String.mk (s.data.map Char.toLower)

/-! ## Data model: color tokens (src/src/components/MagicStyles.tsx) -/

/-- ColorToken of MagicStyles.tsx: name, light and dark values, optional
category label. -/
structure ColorToken where
  name : String
  light : String
  dark : String
  category : Option String
deriving DecidableEq, Repr

/-! ## Contrast engine (the accessibility checker, src/unnamed/part_008) -/

/-- A character matched by the class [a-f\d] with the i flag. -/
def isHexDigitChar (c : Char) : Bool :=
  c.isDigit || ('a' ≤ c && c ≤ 'f') || ('A' ≤ c && c ≤ 'F')

/-- Numeric value of one hex digit, as parseInt with radix 16 assigns it. -/
def hexDigitVal (c : Char) : Nat :=
  if c.isDigit then c.toNat - 48
  else if 'a' ≤ c && c ≤ 'f' then c.toNat - 87
  else c.toNat - 55

/-- parseInt(g, 16) on a captured two-hex-digit group. -/
def hexPairVal (c1 c2 : Char) : Nat := 16 * hexDigitVal c1 + hexDigitVal c2

/-- hexToRgb of part_008: the anchored regex with an optional leading hash
sign and three two-hex-digit groups, case-insensitive; null on mismatch. -/
def hexToRgb (hex : String) : Option (Nat × Nat × Nat) :=
  let cs := match hex.data with
    | '#' :: rest => rest
    | cs => cs
  match cs with
  | [r1, r2, g1, g2, b1, b2] =>
    if (isHexDigitChar r1 && isHexDigitChar r2 && isHexDigitChar g1 &&
        isHexDigitChar g2 && isHexDigitChar b1 && isHexDigitChar b2) then
      some (hexPairVal r1 r2, hexPairVal g1 g2, hexPairVal b1 b2)
    else none
  | _ => none

/-- The sRGB channel linearization of getLuminance: divide by 255 already
done by the caller; threshold 0.03928, else the 2.4 power law. Real numbers
stand for the JavaScript floating-point arithmetic. -/
noncomputable def linearizeChannel (c : ℝ) : ℝ :=
  if c ≤ 0.03928 then c / 12.92 else ((c + 0.055) / 1.055) ^ (2.4 : ℝ)

/-- getLuminance of part_008 on the three 0..255 channels. -/
noncomputable def getLuminance (r g b : Nat) : ℝ :=
  0.2126 * linearizeChannel ((r : ℝ) / 255) +
  0.7152 * linearizeChannel ((g : ℝ) / 255) +
  0.0722 * linearizeChannel ((b : ℝ) / 255)

/-- The four grades of the contrast checker. -/
inductive ContrastGrade where
  | excellent
  | good
  | poor
  | fail
deriving DecidableEq, Repr

/-- ContrastResult of part_008. -/
structure ContrastResult where
  ratio : ℝ
  wcagAA : Bool
  wcagAAA : Bool
  grade : ContrastGrade

/-- The body of getContrastRatio once both colors parsed, as a function of
the two luminances. -/
noncomputable def contrastFromLums (lum1 lum2 : ℝ) : ContrastResult :=
  let ratio := (max lum1 lum2 + 0.05) / (min lum1 lum2 + 0.05)
  { ratio := ratio
    wcagAA := decide (4.5 ≤ ratio)
    wcagAAA := decide (7 ≤ ratio)
    grade :=
      if 7 ≤ ratio then ContrastGrade.excellent
      else if 4.5 ≤ ratio then ContrastGrade.good
      else if 3 ≤ ratio then ContrastGrade.poor
      else ContrastGrade.fail }

/-- getContrastRatio of part_008: parse both colors, return the zero-ratio
failing result when either parse fails, else the ratio of luminances. -/
noncomputable def getContrastRatio (color1 color2 : String) : ContrastResult :=
  match hexToRgb color1, hexToRgb color2 with
  | some rgb1, some rgb2 =>
      contrastFromLums (getLuminance rgb1.1 rgb1.2.1 rgb1.2.2)
        (getLuminance rgb2.1 rgb2.2.1 rgb2.2.2)
  | _, _ => { ratio := 0, wcagAA := false, wcagAAA := false, grade := ContrastGrade.fail }

/-! ## Brightness adjustment (SmartStyleGenerator.tsx, adjustBrightness) -/

/-- hex.replace(hash, empty): remove the first hash sign, if any.
The argument of replace is a plain string, so only the first occurrence
is replaced. -/
def removeFirstHash : List Char → List Char
  | [] => []
  | c :: rest => if c = '#' then rest else c :: removeFirstHash rest

/-- Leading-whitespace removal of parseInt. -/
def skipWs (cs : List Char) : List Char :=
  cs.dropWhile (fun c => c = ' ' || c = '\t' || c = '\n' || c = '\r')

/-- The optional sign of parseInt: the negative flag and the rest. -/
def splitSign : List Char → Bool × List Char
  | '-' :: r => (true, r)
  | '+' :: r => (false, r)
  | cs => (false, cs)

/-- The optional 0x or 0X prefix parseInt accepts at radix 16. -/
def skipHexPrefix : List Char → List Char
  | '0' :: 'x' :: r => r
  | '0' :: 'X' :: r => r
  | cs => cs

/-- parseInt(s, 16): skip leading whitespace, an optional sign, an optional
0x or 0X prefix, then read the longest prefix of hex digits; NaN (here none)
when no digit follows. -/
def parseIntHex (s : String) : Option Int :=
  let signed := splitSign (skipWs s.data)
  let ds := (skipHexPrefix signed.2).takeWhile isHexDigitChar
  if ds.isEmpty then none
  else
    let v : Nat := ds.foldl (fun acc c => 16 * acc + hexDigitVal c) 0
    some (if signed.1 then -(v : Int) else (v : Int))

/-- The ToInt32 conversion the JavaScript bitwise operators apply to their
operands. -/
def toInt32 (n : Int) : Int := (n + 2147483648) % 4294967296 - 2147483648

/-- The channel clamp of adjustBrightness:
R less than 255 gives (R less than 1 gives 0 else R) else 255. -/
def clampChannel (r : Int) : Int :=
  if r < 255 then (if r < 1 then 0 else r) else 255

/-- The digit characters that Number.prototype.toString(16) emits. -/
def hexChar (n : Nat) : Char :=
  if n < 10 then Char.ofNat (48 + n) else Char.ofNat (87 + n)

/-- Fuel-indexed digit extraction; the fuel only makes the recursion
structural, and toHexRevFuel_irrel below shows any fuel at least n agrees. -/
def toHexRevFuel : Nat → Nat → List Char
  | 0, n => [hexChar (n % 16)]
  | fuel + 1, n =>
    if n < 16 then [hexChar n]
    else hexChar (n % 16) :: toHexRevFuel fuel (n / 16)

/-- The hex digits of n, least significant first, as toString(16) produces
them for a nonnegative integer. -/
def toHexRev (n : Nat) : List Char := toHexRevFuel n n

/-- n.toString(16) for a nonnegative n. -/
def toHexString (n : Nat) : String := String.mk (toHexRev n).reverse

/-- adjustBrightness of SmartStyleGenerator.tsx: parse the hash-stripped hex
string, offset each channel by round(2.55 * percent), clamp to 0..255 and
re-render through (0x1000000 + packed).toString(16).slice(1). A failed parse
is NaN, which ToInt32 maps to 0. The shifts and masks of the source are the
floor divisions and remainders below on the 32-bit-wrapped value; the
percentages the generator passes are integers, and round(2.55 * percent) at
an integer percent is the floor of (51 * percent + 10) / 20. -/
def adjustBrightness (hex : String) (percent : Int) : String :=
  let num : Int := toInt32 ((parseIntHex (String.mk (removeFirstHash hex.data))).getD 0)
  let amt : Int := Int.fdiv (51 * percent + 10) 20
  let r := Int.fdiv num 65536 + amt
  let g := (Int.fdiv num 256) % 256 + amt
  let b := num % 256 + amt
  let packed : Int :=
    16777216 + clampChannel r * 65536 + clampChannel g * 256 + clampChannel b
  "#" ++ String.mk ((toHexRev packed.toNat).reverse.drop 1)

/-- The canonical lowercase rendering hash r r g g b b of a 24-bit value;
the strings of this form are exactly the fixed points claimed for
adjustBrightness at percent zero. -/
def renderHexColor (n : Nat) : String :=
  "#" ++ String.mk [hexChar (n / 1048576 % 16), hexChar (n / 65536 % 16),
    hexChar (n / 4096 % 16), hexChar (n / 256 % 16), hexChar (n / 16 % 16),
    hexChar (n % 16)]

/-! ## Text styles and deduplication (TextStyleManager.tsx) -/

/-- The category union type of TextStyle. -/
inductive TextCategory where
  | heading
  | body
  | caption
deriving DecidableEq, Repr

/-- String interpolation of a category value, as the template literal of
cleanupDuplicates renders it. -/
def TextCategory.render : TextCategory → String
  | .heading => "heading"
  | .body => "body"
  | .caption => "caption"

/-- TextStyle of TextStyleManager.tsx. -/
structure TextStyle where
  id : String
  name : String
  fontFamily : String
  fontSize : String
  fontWeight : Nat
  lineHeight : String
  letterSpacing : String
  color : String
  category : TextCategory
deriving DecidableEq, Repr

/-- The collision key of cleanupDuplicates: fontSize dash category. -/
def dupKey (s : TextStyle) : String := s.fontSize ++ "-" ++ s.category.render

/-- The canonical standard-name list of cleanupDuplicates. -/
def standardStyleNames : List String :=
  ["H1", "H2", "H3", "H4", "H5", "H6", "Body L", "Body M", "Sub-title", "Caption"]

/-- The includes test on the standard-name list. -/
def isStandardStyleName (n : String) : Bool := standardStyleNames.contains n

/-- Lookup in the insertion-ordered map that models the seen Map. -/
def seenLookup (m : List (String × TextStyle)) (k : String) : Option TextStyle :=
  (m.find? (fun p => p.1 == k)).map Prod.snd

/-- Map.set semantics: replace in place when the key exists, else append. -/
def seenSet (m : List (String × TextStyle)) (k : String) (v : TextStyle) :
    List (String × TextStyle) :=
  if m.any (fun p => p.1 == k) then
    m.map (fun p => if p.1 == k then (k, v) else p)
  else m ++ [(k, v)]

/-- One iteration of the first pass of cleanupDuplicates. The duplicates
array the source also fills is dead for the return value and is omitted. -/
def cleanupStep (m : List (String × TextStyle)) (style : TextStyle) :
    List (String × TextStyle) :=
  match seenLookup m (dupKey style) with
  | none => seenSet m (dupKey style) style
  | some existing =>
    if isStandardStyleName style.name && !isStandardStyleName existing.name then
      seenSet m (dupKey style) style
    else m

/-- cleanupDuplicates of TextStyleManager.tsx: fold the styles through the
seen map and return its values in key-insertion order. -/
def cleanupDuplicates (styles : List TextStyle) : List TextStyle :=
  ((styles.foldl cleanupStep []).map Prod.snd)

/-- A concrete existing style with a non-standard name, used as witness
input: same fontSize and category as the generated H1 below. -/
def existingCustomStyle : TextStyle :=
  { id := "a", name := "Custom Big", fontFamily := "Inter", fontSize := "49px",
    fontWeight := 700, lineHeight := "1.1", letterSpacing := "0px",
    color := "#000000", category := TextCategory.heading }

/-- A concrete generated H1 text style, as generateTypeScale emits at base
16 and ratio 1.25. -/
def generatedH1Style : TextStyle :=
  { id := "b", name := "H1", fontFamily := "Inter", fontSize := "49px",
    fontWeight := 700, lineHeight := "1.1", letterSpacing := "-0.02em",
    color := "#1f2937", category := TextCategory.heading }

/-! ## CSS export (the style exporter, src/unnamed/part_001) -/

/-- The light-mode declaration line a token contributes to the root block. -/
def lightDeclLine (t : ColorToken) : String :=
  "  --" ++ t.name ++ ": " ++ t.light ++ ";"

/-- The dark-mode declaration line a token contributes to the dark block. -/
def darkDeclLine (t : ColorToken) : String :=
  "  --" ++ t.name ++ ": " ++ t.dark ++ ";"

/-- generateCSS of part_001: string accumulation over both forEach loops. -/
def generateCSS (tokens : List ColorToken) : String :=
  let css := ":root \x7b\n  /* Light mode tokens */\n"
  let css := tokens.foldl
    (fun acc t => acc ++ "  --" ++ t.name ++ ": " ++ t.light ++ ";\n") css
  let css := css ++ "\x7d\n\n.dark \x7b\n  /* Dark mode tokens */\n"
  let css := tokens.foldl
    (fun acc t => acc ++ "  --" ++ t.name ++ ": " ++ t.dark ++ ";\n") css
  css ++ "\x7d\n"

/-- Concatenation of a list of line fragments, used to state the block
structure of the generated CSS. -/
def joinLines (ls : List String) : String := ls.foldr (fun a b => a ++ b) ""

/-- Whether a generated line declares the custom property of the given
token name: it starts with two spaces, two dashes, the name and a colon. -/
def isDeclOf (name line : String) : Bool :=
  listPrefixB ("  --" ++ name ++ ":").data line.data

/-! ## Token import (the token importer, src/unnamed/part_000) -/

/-- One entry of the colors array of the import document. light is none
when the field is missing and some of the raw string otherwise; dark is
none exactly when the document holds null there. -/
structure ColorsEntry where
  id : String
  name : String
  light : Option String
  dark : Option String
  path : String
deriving DecidableEq, Repr

/-- JavaScript truthiness of an optional string field: present and not the
empty string. -/
def truthyStr : Option String → Bool
  | none => false
  | some s => s ≠ ""

/-- A top-level value of the import document, as far as parseTokenData
inspects it: the colors array, a legacy light-dark object, null, or any
other primitive. -/
inductive ImportValue where
  | colorsArr (entries : List ColorsEntry)
  | legacyObj (light : Option String) (dark : Option String)
  | nullVal
  | prim
deriving DecidableEq, Repr

/-- The import document: its top-level fields in object-key order. -/
structure TokenData where
  fields : List (String × ImportValue)
deriving DecidableEq, Repr

/-- data.colors when it is an array, else nothing. -/
def getColorsArray (d : TokenData) : Option (List ColorsEntry) :=
  match (d.fields.find? (fun p => p.1 == "colors")).map Prod.snd with
  | some (ImportValue.colorsArr xs) => some xs
  | _ => none

/-- The category assignment of the colors pass, keyed on the lowercased
path. -/
def categorizeByPath (path : String) : String :=
  let p := strToLower path
  if strIncludes p "text" || strIncludes p "icon" then "Text"
  else if strIncludes p "bg" || strIncludes p "background" || strIncludes p "surface" then
    "Backgrounds"
  else if strIncludes p "border" || strIncludes p "divider" then "Borders"
  else if strIncludes p "brand" || strIncludes p "primary" || strIncludes p "secondary" ||
      strIncludes p "accent" then "Brand"
  else if strIncludes p "semantic" || strIncludes p "success" || strIncludes p "error" ||
      strIncludes p "warning" || strIncludes p "info" then "Semantic"
  else if strIncludes p "neutral" then "Neutral"
  else "Other"

/-- The filter of the colors pass: light truthy and dark not null. -/
def keepColorsEntry (e : ColorsEntry) : Bool :=
  truthyStr e.light && decide (e.dark ≠ none)

/-- The token the colors pass pushes for a kept entry; dark or-else light
covers a present but empty dark string. -/
def mkColorsToken (e : ColorsEntry) : ColorToken :=
  { name := e.name
    light := e.light.getD ""
    dark := match e.dark with
      | some s => if s ≠ "" then s else e.light.getD ""
      | none => e.light.getD ""
    category := some (categorizeByPath e.path) }

/-- The colors-array pass of parseTokenData, a forEach with a guarded
push. -/
def colorsPass (entries : List ColorsEntry) : List ColorToken :=
  entries.foldl
    (fun acc e => if keepColorsEntry e then acc ++ [mkColorsToken e] else acc) []

/-- The category assignment of the legacy pass, keyed on the field name. -/
def categorizeByName (name : String) : String :=
  if strIncludes name "text" || strIncludes name "foreground" then "Text"
  else if strIncludes name "bg" || strIncludes name "background" ||
      strIncludes name "surface" then "Backgrounds"
  else if strIncludes name "border" || strIncludes name "divider" then "Borders"
  else if strIncludes name "primary" || strIncludes name "accent" then "Brand"
  else "Other"

/-- The guard of the legacy pass on one Object.entries pair: a truthy
object value with truthy light and dark, under a key that is neither
colors nor text. -/
def keepLegacyField (name : String) (v : ImportValue) : Bool :=
  match v with
  | ImportValue.legacyObj light dark =>
    truthyStr light && truthyStr dark && name ≠ "colors" && name ≠ "text"
  | _ => false

/-- The token the legacy pass pushes for a kept field. -/
def mkLegacyToken (name : String) (v : ImportValue) : ColorToken :=
  match v with
  | ImportValue.legacyObj light dark =>
    { name := name
      light := light.getD ""
      dark := dark.getD ""
      category := some (categorizeByName name) }
  | _ => { name := name, light := "", dark := "", category := none }

/-- The legacy pass of parseTokenData over all top-level fields. -/
def legacyPass (fields : List (String × ImportValue)) : List ColorToken :=
  fields.foldl
    (fun acc p => if keepLegacyField p.1 p.2 then acc ++ [mkLegacyToken p.1 p.2] else acc) []

/-- parseTokenData of part_000: the colors pass when data.colors is an
array, followed unconditionally by the legacy pass over every top-level
field. -/
def parseTokenData (d : TokenData) : List ColorToken :=
  let tokens := match getColorsArray d with
    | some entries => colorsPass entries
    | none => []
  tokens ++ legacyPass d.fields

/-- The documented sample import document of the token importer: the
Framer-format example shown in the UI of part_000, with Primary and Body
entries in the colors array. -/
def sampleImportDoc : TokenData :=
  { fields := [("colors", ImportValue.colorsArr
      [ { id := "primary-id", name := "Primary", light := some "rgb(168, 255, 214)",
          dark := some "rgb(168, 255, 214)", path := "/Brand/Primary" },
        { id := "text-body-id", name := "Body", light := some "rgb(0, 0, 0)",
          dark := some "rgb(255, 255, 255)", path := "/Text & Icons/Body" } ])] }


/-- The outcome handleFile leaves behind: the token list handed to
the importer callback, if any, and the error message set, if any. -/
structure HandleFileResult where
  imported : Option (List ColorToken)
  error : Option String
deriving DecidableEq, Repr

/-- The message of the no-tokens throw in handleFile. -/
def noTokensMsg : String :=
  "No valid color tokens found. Please check the JSON format examples below."

/-- handleFile of part_000. Reading and JSON-parsing the uploaded file are
host operations; their outcome is the input here: an exception message, or
the parsed document. The try-catch then either delivers the parsed tokens
or records the single caught message. -/
def handleFile (input : Except String TokenData) : HandleFileResult :=
  match input with
  | Except.error e => { imported := none, error := some e }
  | Except.ok data =>
    let tokens := parseTokenData data
    if tokens.length == 0 then { imported := none, error := some noTokensMsg }
    else { imported := some tokens, error := none }

/-! ## Per-token edit (the token grid, src/unnamed/part_002) -/

/-- handleTokenUpdate of the token grid: replace every token whose name
matches the updated token. -/
def handleTokenUpdate (tokens : List ColorToken) (updatedToken : ColorToken) :
    List ColorToken :=
  tokens.map (fun token => if token.name == updatedToken.name then updatedToken else token)

/-- The names of a token list, in order. -/
def tokenNames (tokens : List ColorToken) : List String := tokens.map ColorToken.name

/-! ## Bulk apply to the host (applyStylesToFramer, MagicStyles.tsx) -/

/-- The composed style name: category slash name when a category exists. -/
def styleName (t : ColorToken) : String :=
  match t.category with
  | some c => c ++ "/" ++ t.name
  | none => t.name

/-- One observable host interaction of the apply loop: a completed create
call, a completed update call, or a call that threw. -/
inductive HostEvent where
  | created (name light dark : String)
  | updated (name light dark : String)
  | threw (name : String)
deriving DecidableEq, Repr

/-- The style name an event concerns. -/
def HostEvent.styleOf : HostEvent → String
  | .created n _ _ => n
  | .updated n _ _ => n
  | .threw n => n

/-- The two notification variants the apply function emits. -/
inductive NotifyVariant where
  | success
  | error
deriving DecidableEq, Repr

/-- The for-loop of applyStylesToFramer inside its try block. fails says
whether the host call for a given style name throws; existingNames is the
name set read once before the loop. A throw ends the loop: control moves
to the catch block, so no later token is visited. -/
def applyLoop (fails : String → Bool) (existingNames : List String) :
    List ColorToken → List HostEvent × Bool
  | [] => ([], false)
  | t :: rest =>
    if fails (styleName t) then ([HostEvent.threw (styleName t)], true)
    else
      ((if existingNames.contains (styleName t) then
          HostEvent.updated (styleName t) t.light t.dark
        else HostEvent.created (styleName t) t.light t.dark) ::
          (applyLoop fails existingNames rest).1,
        (applyLoop fails existingNames rest).2)

/-- The outcome of one applyStylesToFramer call: the host interactions in
order, and the notifications shown. -/
structure ApplyResult where
  events : List HostEvent
  notifications : List NotifyVariant
deriving DecidableEq, Repr

/-- applyStylesToFramer of MagicStyles.tsx (and of part_003): guard on a
ready host with a nonempty token list, run the loop inside try, then show
exactly one aggregate notification: success when the loop finished, error
when it threw. -/
def applyStylesToFramer (fails : String → Bool) (existingNames : List String)
    (isFramerReady : Bool) (tokens : List ColorToken) : ApplyResult :=
  if !isFramerReady || tokens.length == 0 then { events := [], notifications := [] }
  else
    { events := (applyLoop fails existingNames tokens).1
      notifications := [if (applyLoop fails existingNames tokens).2 then NotifyVariant.error
        else NotifyVariant.success] }

/-- A concrete token with a category, used by the apply-loop scenarios. -/
def tokA : ColorToken := { name := "a", light := "#111111", dark := "#222222", category := some "Brand" }

/-- A concrete token whose host call is made to fail in the scenarios. -/
def tokB : ColorToken := { name := "b", light := "#333333", dark := "#444444", category := none }

/-- A concrete token that comes after the failing one in the loop. -/
def tokC : ColorToken := { name := "c", light := "#555555", dark := "#666666", category := none }

/-- An edited version of the sample Primary token: same name, new values,
as the save action of the token card produces. -/
def editedPrimaryToken : ColorToken :=
  { name := "Primary", light := "#123456", dark := "#654321", category := some "Brand" }

/-- An import document whose colors array repeats a token name. -/
def dupNameDoc : TokenData :=
  { fields := [("colors", ImportValue.colorsArr
      [ { id := "id1", name := "primary", light := some "#111111",
          dark := some "#222222", path := "/Brand/Primary" },
        { id := "id2", name := "primary", light := some "#333333",
          dark := some "#444444", path := "/Brand/Primary" } ])] }

/-- An import document holding both a colors array (one kept entry, one
entry with null dark) and a legacy flat field. -/
def mixedImportDoc : TokenData :=
  { fields :=
      [ ("colors", ImportValue.colorsArr
          [ { id := "id1", name := "Primary", light := some "#111111",
              dark := some "#222222", path := "/Brand/Primary" },
            { id := "id2", name := "Ghost", light := some "#777777",
              dark := none, path := "/Brand/Ghost" } ]),
        ("brand-extra", ImportValue.legacyObj (some "#aaaaaa") (some "#bbbbbb")) ] }

/-! ## Lemmas about the contrast engine -/

theorem linearizeChannel_nonneg {c : ℝ} (hc : 0 ≤ c) : 0 ≤ linearizeChannel c := by
  unfold linearizeChannel
  split
  · positivity
  · apply Real.rpow_nonneg
    positivity

theorem getLuminance_nonneg (r g b : Nat) : 0 ≤ getLuminance r g b := by
  unfold getLuminance
  have h1 := linearizeChannel_nonneg (c := (r : ℝ) / 255) (by positivity)
  have h2 := linearizeChannel_nonneg (c := (g : ℝ) / 255) (by positivity)
  have h3 := linearizeChannel_nonneg (c := (b : ℝ) / 255) (by positivity)
  nlinarith

theorem linearizeChannel_zero : linearizeChannel 0 = 0 := by
  unfold linearizeChannel
  norm_num

theorem linearizeChannel_one : linearizeChannel 1 = 1 := by
  unfold linearizeChannel
  rw [if_neg (by norm_num)]
  norm_num

theorem getLuminance_black : getLuminance 0 0 0 = 0 := by
  unfold getLuminance
  norm_num [linearizeChannel_zero]

theorem getLuminance_white : getLuminance 255 255 255 = 1 := by
  unfold getLuminance
  norm_num [linearizeChannel_one]

theorem contrastFromLums_comm (l1 l2 : ℝ) :
    contrastFromLums l1 l2 = contrastFromLums l2 l1 := by
  unfold contrastFromLums
  rw [max_comm, min_comm]

theorem contrastFromLums_self (l : ℝ) (hl : 0 ≤ l) :
    (contrastFromLums l l).ratio = 1 := by
  unfold contrastFromLums
  simp only [max_self, min_self]
  rw [div_self]
  nlinarith

/-! ## C2, C5, C6: the contrast claims -/

/-- C2: for every pair of input strings the contrast computation is total
(the embedding is a total function), and whenever either input fails the
six-hex-digit regex the result is the zero-ratio failing record rather than
an error. -/
theorem contrast_malformed_fails (s1 s2 : String)
    (h : hexToRgb s1 = none ∨ hexToRgb s2 = none) :
    getContrastRatio s1 s2 =
      { ratio := 0, wcagAA := false, wcagAAA := false, grade := ContrastGrade.fail } := by
  unfold getContrastRatio
  cases hx : hexToRgb s1 with
  | none => cases hexToRgb s2 <;> rfl
  | some v1 =>
    cases hy : hexToRgb s2 with
    | none => rfl
    | some v2 => rcases h with h | h <;> simp [hx, hy] at h

/-- Witness for C2 at a concrete malformed first input. -/
theorem contrast_malformed_fails_witness :
    (hexToRgb "red" = none ∨ hexToRgb "#ffffff" = none) ∧
      getContrastRatio "red" "#ffffff" =
        { ratio := 0, wcagAA := false, wcagAAA := false, grade := ContrastGrade.fail } :=
  ⟨Or.inl (by decide), contrast_malformed_fails "red" "#ffffff" (Or.inl (by decide))⟩

/-- C6: the contrast result is symmetric in its two color arguments, both
when both parse and when either fails the regex. -/
theorem getContrastRatio_comm (a b : String) :
    getContrastRatio a b = getContrastRatio b a := by
  unfold getContrastRatio
  cases hexToRgb a <;> cases hexToRgb b <;> simp [contrastFromLums_comm]

/-- C5: black against white attains the maximum ratio 21 exactly, and every
color that parses has contrast ratio 1 against itself. -/
theorem contrast_extremes :
    (getContrastRatio "#000000" "#ffffff").ratio = 21 ∧
      ∀ x, hexToRgb x ≠ none → (getContrastRatio x x).ratio = 1 := by
  constructor
  · have h0 : hexToRgb "#000000" = some (0, 0, 0) := by decide
    have h1 : hexToRgb "#ffffff" = some (255, 255, 255) := by decide
    unfold getContrastRatio
    rw [h0, h1]
    show (contrastFromLums (getLuminance 0 0 0) (getLuminance 255 255 255)).ratio = 21
    rw [getLuminance_black, getLuminance_white]
    unfold contrastFromLums
    rw [max_eq_right (by norm_num : (0 : ℝ) ≤ 1), min_eq_left (by norm_num : (0 : ℝ) ≤ 1)]
    norm_num
  · intro x hx
    cases h : hexToRgb x with
    | none => exact absurd h hx
    | some v =>
      unfold getContrastRatio
      rw [h]
      exact contrastFromLums_self _ (getLuminance_nonneg _ _ _)

/-- Witness for C5 with the concrete valid color abcdef in its second
conjunct. -/
theorem contrast_extremes_witness :
    (getContrastRatio "#000000" "#ffffff").ratio = 21 ∧
      (getContrastRatio "#abcdef" "#abcdef").ratio = 1 :=
  ⟨contrast_extremes.1, contrast_extremes.2 "#abcdef" (by decide)⟩

/-! ## C3: brightness adjustment at zero percent -/

theorem toHexRevFuel_irrel (f1 : Nat) : ∀ f2 n, n ≤ f1 → n ≤ f2 →
    toHexRevFuel f1 n = toHexRevFuel f2 n := by
  induction f1 with
  | zero =>
    intro f2 n h1 h2
    interval_cases n
    cases f2 with
    | zero => rfl
    | succ f2 => simp [toHexRevFuel]
  | succ f1 ih =>
    intro f2 n h1 h2
    cases f2 with
    | zero =>
      interval_cases n
      simp [toHexRevFuel]
    | succ f2 =>
      simp only [toHexRevFuel]
      by_cases hn : n < 16
      · simp [hn]
      · simp only [if_neg hn]
        have hd : n / 16 ≤ f1 := by omega
        have hd2 : n / 16 ≤ f2 := by omega
        rw [ih f2 (n / 16) hd hd2]

theorem toHexRev_unfold (n : Nat) :
    toHexRev n = if n < 16 then [hexChar n] else hexChar (n % 16) :: toHexRev (n / 16) := by
  unfold toHexRev
  cases n with
  | zero => simp [toHexRevFuel]
  | succ m =>
    simp only [toHexRevFuel]
    by_cases hn : m + 1 < 16
    · simp [hn]
    · simp only [if_neg hn]
      have := toHexRevFuel_irrel m ((m + 1) / 16) ((m + 1) / 16) (by omega) (le_refl _)
      rw [this]

theorem toHexRev_spec7 (m : Nat) (h1 : 16777216 ≤ m) (h2 : m < 268435456) :
    toHexRev m = [hexChar (m % 16), hexChar (m / 16 % 16), hexChar (m / 256 % 16),
      hexChar (m / 4096 % 16), hexChar (m / 65536 % 16), hexChar (m / 1048576 % 16),
      hexChar (m / 16777216)] := by
  have e1 : m / 16 / 16 = m / 256 := by omega
  have e2 : m / 256 / 16 = m / 4096 := by omega
  have e3 : m / 4096 / 16 = m / 65536 := by omega
  have e4 : m / 65536 / 16 = m / 1048576 := by omega
  have e5 : m / 1048576 / 16 = m / 16777216 := by omega
  rw [toHexRev_unfold, if_neg (by omega)]
  rw [toHexRev_unfold, if_neg (by omega), e1]
  rw [toHexRev_unfold, if_neg (by omega), e2]
  rw [toHexRev_unfold, if_neg (by omega), e3]
  rw [toHexRev_unfold, if_neg (by omega), e4]
  rw [toHexRev_unfold, if_neg (by omega), e5]
  rw [toHexRev_unfold, if_pos (by omega)]

theorem hexChar_facts (d : Nat) (h : d < 16) :
    isHexDigitChar (hexChar d) = true ∧ hexDigitVal (hexChar d) = d ∧
      hexChar d ≠ '-' ∧ hexChar d ≠ '+' ∧ hexChar d ≠ ' ' ∧ hexChar d ≠ '\t' ∧
      hexChar d ≠ '\n' ∧ hexChar d ≠ '\r' ∧ hexChar d ≠ 'x' ∧ hexChar d ≠ 'X' ∧
      hexChar d ≠ '#' := by
  interval_cases d <;> exact ⟨by decide, by decide, by decide, by decide, by decide,
    by decide, by decide, by decide, by decide, by decide, by decide⟩


theorem splitSign_default (c : Char) (cs : List Char) (h1 : c ≠ '-') (h2 : c ≠ '+') :
    splitSign (c :: cs) = (false, c :: cs) := by
  unfold splitSign
  split
  · rename_i r heq
    exact absurd (List.cons.inj heq).1 h1
  · rename_i r heq
    exact absurd (List.cons.inj heq).1 h2
  · rfl

theorem skipHexPrefix_default (l : List Char) (h1 : ∀ r, l ≠ '0' :: 'x' :: r)
    (h2 : ∀ r, l ≠ '0' :: 'X' :: r) : skipHexPrefix l = l := by
  unfold skipHexPrefix
  split
  · rename_i r
    exact absurd rfl (h1 r)
  · rename_i r
    exact absurd rfl (h2 r)
  · rfl

theorem takeWhile_all {p : Char → Bool} : ∀ (l : List Char), (∀ c ∈ l, p c = true) →
    l.takeWhile p = l := by
  intro l h
  induction l with
  | nil => rfl
  | cons c cs ih =>
    rw [List.takeWhile_cons, if_pos (h c (by simp))]
    rw [ih (fun x hx => h x (by simp [hx]))]

theorem parseIntHex_hexDigits (l : List Char) (hne : l ≠ [])
    (hhex : ∀ c ∈ l, isHexDigitChar c = true)
    (hch : ∀ c ∈ l, c ≠ '-' ∧ c ≠ '+' ∧ c ≠ ' ' ∧ c ≠ '\t' ∧ c ≠ '\n' ∧ c ≠ '\r' ∧
      c ≠ 'x' ∧ c ≠ 'X') :
    parseIntHex (String.mk l) =
      some ((l.foldl (fun acc c => 16 * acc + hexDigitVal c) 0 : Nat) : Int) := by
  obtain ⟨c, cs, rfl⟩ : ∃ c cs, l = c :: cs := by
    cases l with
    | nil => exact absurd rfl hne
    | cons c cs => exact ⟨c, cs, rfl⟩
  have hc := hch c (by simp)
  have hskip : skipWs (c :: cs) = c :: cs := by
    unfold skipWs
    rw [List.dropWhile_cons, if_neg]
    simp only [decide_eq_true_eq, Bool.or_eq_true, not_or]
    tauto
  have hsign : splitSign (skipWs (c :: cs)) = (false, c :: cs) := by
    rw [hskip]
    exact splitSign_default c cs hc.1 hc.2.1
  have hpre : skipHexPrefix (c :: cs) = c :: cs := by
    apply skipHexPrefix_default
    · intro r heq
      have : 'x' ∈ c :: cs := by rw [heq]; simp
      exact (hch _ this).2.2.2.2.2.2.1 rfl
    · intro r heq
      have : 'X' ∈ c :: cs := by rw [heq]; simp
      exact (hch _ this).2.2.2.2.2.2.2 rfl
  have htake : (c :: cs).takeWhile isHexDigitChar = c :: cs := takeWhile_all _ hhex
  unfold parseIntHex
  show (let signed := splitSign (skipWs (String.mk (c :: cs)).data); _ : Option Int) = _
  simp only [String.data] at *
  rw [hsign]
  simp only [hpre, htake]
  rw [if_neg (by simp)]
  simp

theorem clampChannel_id (z : Int) (h0 : 0 ≤ z) (h255 : z ≤ 255) : clampChannel z = z := by
  unfold clampChannel
  split_ifs <;> omega

theorem foldl_hexDigits6 (d5 d4 d3 d2 d1 d0 : Nat) (h5 : d5 < 16) (h4 : d4 < 16)
    (h3 : d3 < 16) (h2 : d2 < 16) (h1 : d1 < 16) (h0 : d0 < 16) :
    [hexChar d5, hexChar d4, hexChar d3, hexChar d2, hexChar d1, hexChar d0].foldl
      (fun acc c => 16 * acc + hexDigitVal c) 0 =
      ((((d5 * 16 + d4) * 16 + d3) * 16 + d2) * 16 + d1) * 16 + d0 := by
  simp only [List.foldl_cons, List.foldl_nil, (hexChar_facts _ h5).2.1,
    (hexChar_facts _ h4).2.1, (hexChar_facts _ h3).2.1, (hexChar_facts _ h2).2.1,
    (hexChar_facts _ h1).2.1, (hexChar_facts _ h0).2.1]
  ring


/-- C3 (amended): at percent zero, adjustBrightness is the identity exactly
on canonical lowercase renderings: for every 24-bit value, applying it to
the hash-plus-six-lowercase-hex-digit string of that value returns the
input unchanged. The unamended claim, over every hex color string, fails
on uppercase spellings; see the counterexample below. -/
theorem adjustBrightness_zero_of_canonical (n : Nat) (h : n < 16777216) :
    adjustBrightness (renderHexColor n) 0 = renderHexColor n := by
  have h5 : n / 1048576 % 16 < 16 := Nat.mod_lt _ (by norm_num)
  have h4 : n / 65536 % 16 < 16 := Nat.mod_lt _ (by norm_num)
  have h3 : n / 4096 % 16 < 16 := Nat.mod_lt _ (by norm_num)
  have h2 : n / 256 % 16 < 16 := Nat.mod_lt _ (by norm_num)
  have h1 : n / 16 % 16 < 16 := Nat.mod_lt _ (by norm_num)
  have h0 : n % 16 < 16 := Nat.mod_lt _ (by norm_num)
  set L : List Char := [hexChar (n / 1048576 % 16), hexChar (n / 65536 % 16),
    hexChar (n / 4096 % 16), hexChar (n / 256 % 16), hexChar (n / 16 % 16),
    hexChar (n % 16)] with hL
  have hdata : (renderHexColor n).data = '#' :: L := by
    unfold renderHexColor
    rw [String.data_append]
    rfl
  have hstrip : removeFirstHash (renderHexColor n).data = L := by
    rw [hdata]
    simp [removeFirstHash]
  have hmem : ∀ c ∈ L, ∃ d, d < 16 ∧ c = hexChar d := by
    intro c hc
    simp only [hL, List.mem_cons, List.not_mem_nil, or_false] at hc
    rcases hc with rfl | rfl | rfl | rfl | rfl | rfl
    · exact ⟨_, h5, rfl⟩
    · exact ⟨_, h4, rfl⟩
    · exact ⟨_, h3, rfl⟩
    · exact ⟨_, h2, rfl⟩
    · exact ⟨_, h1, rfl⟩
    · exact ⟨_, h0, rfl⟩
  have hparse : parseIntHex (String.mk L) = some ((n : Nat) : Int) := by
    rw [parseIntHex_hexDigits L (by simp [hL]) ?hx ?hy]
    · congr 1
      norm_cast
      rw [hL]
      rw [foldl_hexDigits6 _ _ _ _ _ _ h5 h4 h3 h2 h1 h0]
      omega
    case hx =>
      intro c hc
      obtain ⟨d, hd, rfl⟩ := hmem c hc
      exact (hexChar_facts d hd).1
    case hy =>
      intro c hc
      obtain ⟨d, hd, rfl⟩ := hmem c hc
      have hf := hexChar_facts d hd
      exact ⟨hf.2.2.1, hf.2.2.2.1, hf.2.2.2.2.1, hf.2.2.2.2.2.1, hf.2.2.2.2.2.2.1,
        hf.2.2.2.2.2.2.2.1, hf.2.2.2.2.2.2.2.2.1, hf.2.2.2.2.2.2.2.2.2.1⟩
  unfold adjustBrightness
  rw [hstrip, hparse]
  simp only [Option.getD_some]
  have htoI : toInt32 ((n : Nat) : Int) = (n : Int) := by
    unfold toInt32
    omega
  rw [htoI]
  have hamt : Int.fdiv (51 * 0 + 10) 20 = 0 := by decide
  rw [hamt]
  have hr : Int.fdiv (n : Int) 65536 = ((n / 65536 : Nat) : Int) := (Int.ofNat_fdiv n 65536).symm
  have hg : Int.fdiv (n : Int) 256 = ((n / 256 : Nat) : Int) := (Int.ofNat_fdiv n 256).symm
  rw [hr, hg]
  have hg2 : ((n / 256 : Nat) : Int) % 256 + 0 = ((n / 256 % 256 : Nat) : Int) := by
    push_cast
    ring
  have hb2 : ((n : Nat) : Int) % 256 + 0 = ((n % 256 : Nat) : Int) := by
    push_cast
    ring
  rw [hg2, hb2, add_zero]
  clear hmem hparse hdata hstrip htoI hamt hr hg hg2 hb2 hL
  clear L
  have hc1 : clampChannel ((n / 65536 : Nat) : Int) = ((n / 65536 : Nat) : Int) := by
    apply clampChannel_id _ (Int.natCast_nonneg _)
    have : (n / 65536 : Nat) ≤ 255 := by omega
    exact_mod_cast this
  have hc2 : clampChannel ((n / 256 % 256 : Nat) : Int) = ((n / 256 % 256 : Nat) : Int) := by
    apply clampChannel_id _ (Int.natCast_nonneg _)
    have : (n / 256 % 256 : Nat) ≤ 255 := by omega
    exact_mod_cast this
  have hc3 : clampChannel ((n % 256 : Nat) : Int) = ((n % 256 : Nat) : Int) := by
    apply clampChannel_id _ (Int.natCast_nonneg _)
    have : (n % 256 : Nat) ≤ 255 := by omega
    exact_mod_cast this
  rw [hc1, hc2, hc3]
  have hpacked : ((16777216 : Int) + ((n / 65536 : Nat) : Int) * 65536 + ((n / 256 % 256 : Nat) : Int) * 256 +
      ((n % 256 : Nat) : Int)).toNat = 16777216 + n := by
    push_cast
    omega
  rw [hpacked]
  rw [toHexRev_spec7 (16777216 + n) (by omega) (by omega)]
  have e0 : (16777216 + n) % 16 = n % 16 := by omega
  have e1 : (16777216 + n) / 16 % 16 = n / 16 % 16 := by omega
  have e2 : (16777216 + n) / 256 % 16 = n / 256 % 16 := by omega
  have e3 : (16777216 + n) / 4096 % 16 = n / 4096 % 16 := by omega
  have e4 : (16777216 + n) / 65536 % 16 = n / 65536 % 16 := by omega
  have e5 : (16777216 + n) / 1048576 % 16 = n / 1048576 % 16 := by omega
  have e6 : (16777216 + n) / 16777216 = 1 := by omega
  rw [e0, e1, e2, e3, e4, e5, e6]
  simp only [List.reverse_cons, List.reverse_nil, List.nil_append, List.cons_append,
    List.singleton_append, List.drop_succ_cons, List.drop_zero]
  rfl

/-- Witness for C3 at the concrete 24-bit value of the color 1f2937. -/
theorem adjustBrightness_zero_of_canonical_witness :
    2042167 < 16777216 ∧
      adjustBrightness (renderHexColor 2042167) 0 = renderHexColor 2042167 :=
  ⟨by decide, adjustBrightness_zero_of_canonical 2042167 (by decide)⟩

/-- Counterexample to C3 as stated: the six-hex-digit color string FFFFFF
in uppercase is re-emitted in lowercase, so zero-percent adjustment is not
the identity on every hex color string. -/
theorem adjustBrightness_zero_not_identity :
    adjustBrightness "#FFFFFF" 0 = "#ffffff" ∧ adjustBrightness "#FFFFFF" 0 ≠ "#FFFFFF" := by
  constructor
  · decide
  · decide

/-! ## C4: deduplication prefers canonical standard names -/

theorem find_replace_self (k : String) (v : TextStyle) :
    ∀ (m : List (String × TextStyle)), (m.any (fun p => p.1 == k)) = true →
      List.find? (fun p => p.1 == k) (m.map (fun p => if p.1 == k then (k, v) else p)) =
        some (k, v) := by
  intro m hany
  induction m with
  | nil => simp at hany
  | cons p rest ih =>
    by_cases hp : (p.1 == k) = true
    · simp only [List.map_cons, if_pos hp, List.find?_cons]
      rw [show ((k, v).1 == k) = true by simp]
    · have hp' : (p.1 == k) = false := by revert hp; cases (p.1 == k) <;> simp
      simp only [List.any_cons, Bool.or_eq_true] at hany
      rcases hany with h | h
      · exact absurd h hp
      · simp only [List.map_cons, hp', Bool.false_eq_true, if_false, List.find?_cons, hp']
        exact ih h

theorem find_append_fresh (k : String) (v : TextStyle) :
    ∀ (m : List (String × TextStyle)), (m.any (fun p => p.1 == k)) = false →
      List.find? (fun p => p.1 == k) (m ++ [(k, v)]) = some (k, v) := by
  intro m hany
  induction m with
  | nil => simp [List.find?_cons]
  | cons p rest ih =>
    simp only [List.any_cons, Bool.or_eq_false_iff] at hany
    simp only [List.cons_append, List.find?_cons, hany.1]
    exact ih hany.2

theorem find_replace_ne (k k' : String) (v : TextStyle) (hk : k ≠ k') :
    ∀ (m : List (String × TextStyle)),
      List.find? (fun p => p.1 == k') (m.map (fun p => if p.1 == k then (k, v) else p)) =
        List.find? (fun p => p.1 == k') m := by
  intro m
  induction m with
  | nil => rfl
  | cons p rest ih =>
    by_cases hp : (p.1 == k) = true
    · have hp' : p.1 = k := by simpa using hp
      simp only [List.map_cons, if_pos hp, List.find?_cons]
      rw [show ((k, v).1 == k') = false by simp [hk], show (p.1 == k') = false by simp [hp', hk]]
      exact ih
    · simp only [List.map_cons, if_neg hp, List.find?_cons]
      by_cases hq : (p.1 == k') = true
      · simp [hq]
      · simp only [hq]
        exact ih

theorem find_append_ne (k k' : String) (v : TextStyle) (hk : k ≠ k') :
    ∀ (m : List (String × TextStyle)),
      List.find? (fun p => p.1 == k') (m ++ [(k, v)]) =
        List.find? (fun p => p.1 == k') m := by
  intro m
  induction m with
  | nil => simp [List.find?_cons, show (k == k') = false by simp [hk]]
  | cons p rest ih =>
    simp only [List.cons_append, List.find?_cons]
    by_cases hq : (p.1 == k') = true
    · simp [hq]
    · simp only [hq]
      exact ih

theorem seenLookup_set_self (m : List (String × TextStyle)) (k : String) (v : TextStyle) :
    seenLookup (seenSet m k v) k = some v := by
  unfold seenLookup seenSet
  by_cases hany : (m.any (fun p => p.1 == k)) = true
  · rw [if_pos hany, find_replace_self k v m hany]
    rfl
  · have hany2 : (m.any (fun p => p.1 == k)) = false := by
      revert hany
      cases (m.any (fun p => p.1 == k)) <;> simp
    rw [if_neg hany, find_append_fresh k v m hany2]
    rfl

theorem seenLookup_set_ne (m : List (String × TextStyle)) (k k' : String) (v : TextStyle)
    (hk : k ≠ k') : seenLookup (seenSet m k v) k' = seenLookup m k' := by
  unfold seenLookup seenSet
  by_cases hany : (m.any (fun p => p.1 == k)) = true
  · rw [if_pos hany, find_replace_ne k k' v hk m]
  · rw [if_neg hany, find_append_ne k k' v hk m]

theorem cleanupStep_lookup_ne (m : List (String × TextStyle)) (s : TextStyle) (k : String)
    (hk : dupKey s ≠ k) : seenLookup (cleanupStep m s) k = seenLookup m k := by
  unfold cleanupStep
  cases seenLookup m (dupKey s) with
  | none => exact seenLookup_set_ne m (dupKey s) k s hk
  | some ex =>
    show seenLookup (if (isStandardStyleName s.name && !isStandardStyleName ex.name) = true then
      seenSet m (dupKey s) s else m) k = seenLookup m k
    by_cases hcond : (isStandardStyleName s.name && !isStandardStyleName ex.name) = true
    · rw [if_pos hcond]
      exact seenLookup_set_ne m (dupKey s) k s hk
    · rw [if_neg hcond]

theorem cleanupStep_inv (m : List (String × TextStyle)) (s : TextStyle)
    (hkeys : ∀ p ∈ m, p.1 = dupKey p.2) (hnodup : (m.map Prod.fst).Nodup) :
    (∀ p ∈ cleanupStep m s, p.1 = dupKey p.2) ∧
      ((cleanupStep m s).map Prod.fst).Nodup := by
  have hset : ∀ v : TextStyle, dupKey v = dupKey s →
      (∀ p ∈ seenSet m (dupKey s) v, p.1 = dupKey p.2) ∧
        ((seenSet m (dupKey s) v).map Prod.fst).Nodup := by
    intro v hv
    unfold seenSet
    by_cases hany : (m.any (fun p => p.1 == dupKey s)) = true
    · rw [if_pos hany]
      constructor
      · intro p hp
        obtain ⟨q, hq, rfl⟩ := List.mem_map.mp hp
        by_cases hqk : (q.1 == dupKey s) = true
        · simp only [hqk, if_true, hv]
        · have hqk' : (q.1 == dupKey s) = false := by
            revert hqk
            cases (q.1 == dupKey s) <;> simp
          simp only [hqk', Bool.false_eq_true, if_false]
          exact hkeys q hq
      · have : ((m.map (fun p => if (p.1 == dupKey s) = true then (dupKey s, v) else p)).map
            Prod.fst) = m.map Prod.fst := by
          rw [List.map_map]
          apply List.map_congr_left
          intro q hq
          by_cases hqk : (q.1 == dupKey s) = true
          · have : q.1 = dupKey s := by simpa using hqk
            simp [hqk, this]
          · have hne : ¬ q.1 = dupKey s := by simpa using hqk
            simp [hne]
        rw [this]
        exact hnodup
    · rw [if_neg hany]
      constructor
      · intro p hp
        rcases List.mem_append.mp hp with h | h
        · exact hkeys p h
        · simp only [List.mem_singleton] at h
          subst h
          exact hv.symm
      · rw [List.map_append]
        simp only [List.map_cons, List.map_nil]
        apply List.Nodup.append hnodup (by simp)
        intro a ha hb
        simp only [List.mem_singleton] at hb
        subst hb
        obtain ⟨q, hq, hq1⟩ := List.mem_map.mp ha
        have : (m.any (fun p => p.1 == dupKey s)) = true :=
          List.any_eq_true.mpr ⟨q, hq, by simp [hq1]⟩
        exact hany this
  unfold cleanupStep
  cases hlook : seenLookup m (dupKey s) with
  | none => exact hset s rfl
  | some ex =>
    show (∀ p ∈ (if (isStandardStyleName s.name && !isStandardStyleName ex.name) = true then
        seenSet m (dupKey s) s else m), p.1 = dupKey p.2) ∧
      ((if (isStandardStyleName s.name && !isStandardStyleName ex.name) = true then
        seenSet m (dupKey s) s else m).map Prod.fst).Nodup
    by_cases hcond : (isStandardStyleName s.name && !isStandardStyleName ex.name) = true
    · rw [if_pos hcond]
      exact hset s rfl
    · rw [if_neg hcond]
      exact ⟨hkeys, hnodup⟩

theorem foldl_cleanupStep_inv (rest : List TextStyle) :
    ∀ (m : List (String × TextStyle)), (∀ p ∈ m, p.1 = dupKey p.2) →
      ((m.map Prod.fst).Nodup) →
      (∀ p ∈ rest.foldl cleanupStep m, p.1 = dupKey p.2) ∧
        ((rest.foldl cleanupStep m).map Prod.fst).Nodup := by
  induction rest with
  | nil => exact fun m h1 h2 => ⟨h1, h2⟩
  | cons s rest ih =>
    intro m h1 h2
    have := cleanupStep_inv m s h1 h2
    exact ih (cleanupStep m s) this.1 this.2

theorem seenLookup_of_mem (m : List (String × TextStyle))
    (hnodup : (m.map Prod.fst).Nodup) (q : String × TextStyle) (hq : q ∈ m) :
    seenLookup m q.1 = some q.2 := by
  induction m with
  | nil => simp at hq
  | cons p rest ih =>
    rcases List.mem_cons.mp hq with rfl | hq'
    · simp [seenLookup, List.find?_cons]
    · have hnodup2 : (p.1 :: rest.map Prod.fst).Nodup := by simpa using hnodup
      have hnd := List.nodup_cons.mp hnodup2
      by_cases hp : (p.1 == q.1) = true
      · exfalso
        have hp' : p.1 = q.1 := by simpa using hp
        apply hnd.1
        rw [hp']
        exact List.mem_map.mpr ⟨q, hq', rfl⟩
      · have hp' : (p.1 == q.1) = false := by
          revert hp
          cases (p.1 == q.1) <;> simp
        simp only [seenLookup, List.find?_cons, hp']
        exact ih hnd.2 hq'

theorem cleanupFold_winner (g : TextStyle) (hstd : isStandardStyleName g.name = true)
    (rest : List TextStyle) :
    ∀ (m : List (String × TextStyle)), (∀ p ∈ m, p.1 = dupKey p.2) →
      ((m.map Prod.fst).Nodup) →
      (∀ s ∈ rest, dupKey s = dupKey g → isStandardStyleName s.name = true → s = g) →
      (seenLookup m (dupKey g) = some g ∨
        (g ∈ rest ∧ (seenLookup m (dupKey g) = none ∨
          ∃ w, seenLookup m (dupKey g) = some w ∧ isStandardStyleName w.name = false))) →
      seenLookup (rest.foldl cleanupStep m) (dupKey g) = some g := by
  induction rest with
  | nil =>
    intro m _ _ _ hdisj
    rcases hdisj with h | ⟨hmem, _⟩
    · exact h
    · simp at hmem
  | cons s rest ih =>
    intro m hkeys hnodup honly hdisj
    rw [List.foldl_cons]
    have hinv := cleanupStep_inv m s hkeys hnodup
    apply ih (cleanupStep m s) hinv.1 hinv.2 (fun t ht => honly t (List.mem_cons_of_mem s ht))
    by_cases hsK : dupKey s = dupKey g
    · rcases hdisj with hg | ⟨hgmem, hrest⟩
      · left
        have hlookg : seenLookup m (dupKey s) = some g := by rw [hsK]; exact hg
        have hcond : (isStandardStyleName s.name && !isStandardStyleName g.name) = false := by
          rw [hstd]
          simp
        have hstep : cleanupStep m s = m := by
          unfold cleanupStep
          rw [hlookg]
          show (if (isStandardStyleName s.name && !isStandardStyleName g.name) = true
            then seenSet m (dupKey s) s else m) = m
          rw [hcond]
          simp
        rw [hstep]
        exact hg
      · rcases hrest with hnone | ⟨w, hw, hwstd⟩
        · have hnone' : seenLookup m (dupKey s) = none := by rw [hsK]; exact hnone
          have hstep : cleanupStep m s = seenSet m (dupKey s) s := by
            unfold cleanupStep
            rw [hnone']
          rw [hstep]
          by_cases hsstd : isStandardStyleName s.name = true
          · have hsg : s = g := honly s (List.mem_cons_self s rest) hsK hsstd
            left
            rw [← hsK, show (some g : Option TextStyle) = some s by rw [hsg]]
            exact seenLookup_set_self m (dupKey s) s
          · right
            constructor
            · rcases List.mem_cons.mp hgmem with rfl | h
              · exact absurd hstd hsstd
              · exact h
            · right
              refine ⟨s, ?_, ?_⟩
              · rw [← hsK]
                exact seenLookup_set_self m (dupKey s) s
              · revert hsstd
                cases isStandardStyleName s.name <;> simp
        · have hwred : seenLookup m (dupKey s) = some w := by rw [hsK, hw]
          by_cases hsstd : isStandardStyleName s.name = true
          · have hcond : (isStandardStyleName s.name && !isStandardStyleName w.name) = true := by
              rw [hsstd, hwstd]
              rfl
            have hstep : cleanupStep m s = seenSet m (dupKey s) s := by
              unfold cleanupStep
              rw [hwred]
              show (if (isStandardStyleName s.name && !isStandardStyleName w.name) = true
                then seenSet m (dupKey s) s else m) = seenSet m (dupKey s) s
              rw [hcond]
              simp
            have hsg : s = g := honly s (List.mem_cons_self s rest) hsK hsstd
            left
            rw [hstep, ← hsK, show (some g : Option TextStyle) = some s by rw [hsg]]
            exact seenLookup_set_self m (dupKey s) s
          · have hcond : (isStandardStyleName s.name && !isStandardStyleName w.name) = false := by
              revert hsstd
              cases isStandardStyleName s.name <;> simp
            have hstep : cleanupStep m s = m := by
              unfold cleanupStep
              rw [hwred]
              show (if (isStandardStyleName s.name && !isStandardStyleName w.name) = true
                then seenSet m (dupKey s) s else m) = m
              rw [hcond]
              simp
            rw [hstep]
            right
            constructor
            · rcases List.mem_cons.mp hgmem with rfl | h
              · exact absurd hstd hsstd
              · exact h
            · right
              exact ⟨w, hw, hwstd⟩
    · have hstep := cleanupStep_lookup_ne m s (dupKey g) hsK
      rcases hdisj with hg | ⟨hgmem, hrest⟩
      · left
        rw [hstep]
        exact hg
      · right
        constructor
        · rcases List.mem_cons.mp hgmem with rfl | h
          · exact absurd rfl hsK
          · exact h
        · rw [hstep]
          exact hrest

/-- C4: if a standard-named style g is in the merged list and every other
style sharing its (fontSize, category) key is not standard-named, then the
deduplicated output keeps g, and g is the only entry of that key in the
output. This is exactly the collision of a generated H1 with an existing
differently-named style on the same key. -/
theorem cleanup_keeps_standard (styles : List TextStyle) (g : TextStyle)
    (hg : g ∈ styles) (hstd : isStandardStyleName g.name = true)
    (honly : ∀ s ∈ styles, dupKey s = dupKey g → isStandardStyleName s.name = true → s = g) :
    g ∈ cleanupDuplicates styles ∧
      ∀ s ∈ cleanupDuplicates styles, dupKey s = dupKey g → s = g := by
  have hwin := cleanupFold_winner g hstd styles [] (by simp) (by simp) honly
    (Or.inr ⟨hg, Or.inl rfl⟩)
  have hinv := foldl_cleanupStep_inv styles [] (by simp) (by simp)
  obtain ⟨q, hqfind, hq2⟩ : ∃ q, List.find? (fun p => p.1 == dupKey g)
      (styles.foldl cleanupStep []) = some q ∧ q.2 = g := by
    unfold seenLookup at hwin
    cases hfind : List.find? (fun p => p.1 == dupKey g) (styles.foldl cleanupStep []) with
    | none =>
      rw [hfind] at hwin
      exact absurd hwin (by simp)
    | some q =>
      rw [hfind] at hwin
      exact ⟨q, rfl, by simpa using hwin⟩
  have hqmem : q ∈ styles.foldl cleanupStep [] := List.mem_of_find?_eq_some hqfind
  constructor
  · unfold cleanupDuplicates
    rw [← hq2]
    exact List.mem_map.mpr ⟨q, hqmem, rfl⟩
  · intro s hs hkey
    unfold cleanupDuplicates at hs
    obtain ⟨r, hrmem, hr2⟩ := List.mem_map.mp hs
    have hr1 : r.1 = dupKey r.2 := hinv.1 r hrmem
    have hlook : seenLookup (styles.foldl cleanupStep []) r.1 = some r.2 :=
      seenLookup_of_mem _ hinv.2 r hrmem
    rw [hr1, hr2, hkey] at hlook
    rw [hwin] at hlook
    injection hlook with h
    exact h.symm

/-- Witness for C4: an existing non-standard 49px heading style collides
with a generated H1 of the same size and category; H1 is kept. -/
theorem cleanup_keeps_standard_witness :
    (generatedH1Style ∈ [existingCustomStyle, generatedH1Style] ∧
      isStandardStyleName generatedH1Style.name = true ∧
      (∀ s ∈ [existingCustomStyle, generatedH1Style], dupKey s = dupKey generatedH1Style →
        isStandardStyleName s.name = true → s = generatedH1Style)) ∧
    (generatedH1Style ∈ cleanupDuplicates [existingCustomStyle, generatedH1Style] ∧
      ∀ s ∈ cleanupDuplicates [existingCustomStyle, generatedH1Style],
        dupKey s = dupKey generatedH1Style → s = generatedH1Style) :=
  ⟨⟨by decide, by decide, by decide⟩,
    cleanup_keeps_standard _ generatedH1Style (by decide) (by decide) (by decide)⟩

/-! ## C7: one declaration per token in each CSS block -/

theorem listPrefixB_append_both (xs : List Char) :
    ∀ (l1 l2 : List Char), listPrefixB (xs ++ l1) (xs ++ l2) = listPrefixB l1 l2 := by
  induction xs with
  | nil => intro l1 l2; rfl
  | cons c cs ih =>
    intro l1 l2
    simp only [List.cons_append, listPrefixB, beq_self_eq_true, Bool.true_and]
    exact ih l1 l2

theorem listPrefixB_colon_eq : ∀ (a b r : List Char), ':' ∉ a → ':' ∉ b →
    (listPrefixB (a ++ [':']) (b ++ ':' :: r) = true ↔ a = b) := by
  intro a
  induction a with
  | nil =>
    intro b r _ hb
    cases b with
    | nil => simp [listPrefixB]
    | cons d bs =>
      have hd : d ≠ ':' := fun h => hb (by simp [h])
      simp only [List.nil_append, List.cons_append, listPrefixB]
      constructor
      · intro h
        rw [show ((':' : Char) == d) = false by simp [Ne.symm hd]] at h
        simp at h
      · intro h
        simp at h
  | cons c as ih =>
    intro b r hc hb
    have hcc : c ≠ ':' := fun h => hc (by simp [h])
    cases b with
    | nil =>
      simp only [List.cons_append, List.nil_append, listPrefixB]
      constructor
      · intro h
        rw [show ((c : Char) == ':') = false by simp [hcc]] at h
        simp at h
      · intro h
        simp at h
    | cons d bs =>
      have hb' : ':' ∉ bs := fun h => hb (by simp [h])
      have hc' : ':' ∉ as := fun h => hc (by simp [h])
      simp only [List.cons_append, listPrefixB, Bool.and_eq_true, beq_iff_eq, List.append_eq]
      rw [ih bs r hc' hb']
      constructor
      · rintro ⟨rfl, rfl⟩
        rfl
      · intro h
        injection h with h1 h2
        exact ⟨h1, h2⟩

theorem isDeclOf_lightDeclLine (n : String) (t : ColorToken) (hn : ':' ∉ n.data)
    (ht : ':' ∉ t.name.data) : (isDeclOf n (lightDeclLine t) = true) ↔ n = t.name := by
  unfold isDeclOf lightDeclLine
  have hpat : ("  --" ++ n ++ ":").data = "  --".data ++ (n.data ++ [':']) := by
    simp [String.data_append]
  have hline : ("  --" ++ t.name ++ ": " ++ t.light ++ ";").data =
      "  --".data ++ (t.name.data ++ ':' :: (' ' :: (t.light.data ++ [';']))) := by
    simp [String.data_append]
  rw [hpat, hline, listPrefixB_append_both]
  rw [listPrefixB_colon_eq n.data t.name.data _ hn ht]
  constructor
  · exact fun h => String.ext h
  · rintro rfl
    rfl

theorem isDeclOf_darkDeclLine (n : String) (t : ColorToken) (hn : ':' ∉ n.data)
    (ht : ':' ∉ t.name.data) : (isDeclOf n (darkDeclLine t) = true) ↔ n = t.name := by
  unfold isDeclOf darkDeclLine
  have hpat : ("  --" ++ n ++ ":").data = "  --".data ++ (n.data ++ [':']) := by
    simp [String.data_append]
  have hline : ("  --" ++ t.name ++ ": " ++ t.dark ++ ";").data =
      "  --".data ++ (t.name.data ++ ':' :: (' ' :: (t.dark.data ++ [';']))) := by
    simp [String.data_append]
  rw [hpat, hline, listPrefixB_append_both]
  rw [listPrefixB_colon_eq n.data t.name.data _ hn ht]
  constructor
  · exact fun h => String.ext h
  · rintro rfl
    rfl

theorem foldl_lightLines (l : List ColorToken) :
    ∀ (init : String),
      l.foldl (fun acc t => acc ++ "  --" ++ t.name ++ ": " ++ t.light ++ ";\n") init =
        init ++ joinLines (l.map (fun t => lightDeclLine t ++ "\n")) := by
  induction l with
  | nil =>
    intro init
    simp [joinLines, String.append_empty]
  | cons t rest ih =>
    intro init
    rw [List.foldl_cons, ih]
    simp only [List.map_cons, joinLines, List.foldr_cons]
    show init ++ "  --" ++ t.name ++ ": " ++ t.light ++ ";\n" ++
        List.foldr (fun a b => a ++ b) "" (rest.map (fun t => lightDeclLine t ++ "\n")) = _
    apply String.ext
    simp [String.data_append, lightDeclLine, joinLines]

theorem foldl_darkLines (l : List ColorToken) :
    ∀ (init : String),
      l.foldl (fun acc t => acc ++ "  --" ++ t.name ++ ": " ++ t.dark ++ ";\n") init =
        init ++ joinLines (l.map (fun t => darkDeclLine t ++ "\n")) := by
  induction l with
  | nil =>
    intro init
    simp [joinLines, String.append_empty]
  | cons t rest ih =>
    intro init
    rw [List.foldl_cons, ih]
    simp only [List.map_cons, joinLines, List.foldr_cons]
    apply String.ext
    simp [String.data_append, darkDeclLine, joinLines]

/-- C7: for a token list satisfying the working-set name invariant (pairwise
distinct names, and names without a colon, which would change the parsed
property name), the CSS export is the root block holding exactly the light
declaration lines followed by the dark block holding exactly the dark
declaration lines, and for each token exactly one line of each block
declares its custom property, carrying the light respectively dark value. -/
theorem generateCSS_one_decl_per_token (tokens : List ColorToken)
    (hnodup : (tokenNames tokens).Nodup)
    (hnc : ∀ t ∈ tokens, ':' ∉ t.name.data) :
    (generateCSS tokens =
      ":root \x7b\n  /* Light mode tokens */\n" ++
        joinLines (tokens.map (fun t => lightDeclLine t ++ "\n")) ++
        "\x7d\n\n.dark \x7b\n  /* Dark mode tokens */\n" ++
        joinLines (tokens.map (fun t => darkDeclLine t ++ "\n")) ++ "\x7d\n") ∧
    ∀ t ∈ tokens,
      (tokens.map lightDeclLine).countP (fun l => isDeclOf t.name l) = 1 ∧
      (∀ l ∈ tokens.map lightDeclLine, isDeclOf t.name l = true → l = lightDeclLine t) ∧
      (tokens.map darkDeclLine).countP (fun l => isDeclOf t.name l) = 1 ∧
      (∀ l ∈ tokens.map darkDeclLine, isDeclOf t.name l = true → l = darkDeclLine t) := by
  have hnodup' : (tokens.map ColorToken.name).Nodup := hnodup
  constructor
  · show (List.foldl (fun acc t => acc ++ "  --" ++ t.name ++ ": " ++ t.dark ++ ";\n")
        (List.foldl (fun acc t => acc ++ "  --" ++ t.name ++ ": " ++ t.light ++ ";\n")
          ":root \x7b\n  /* Light mode tokens */\n" tokens ++
          "\x7d\n\n.dark \x7b\n  /* Dark mode tokens */\n") tokens ++ "\x7d\n") = _
    rw [foldl_lightLines, foldl_darkLines]
  · intro t ht
    have htc := hnc t ht
    have hinj : ∀ t' ∈ tokens, t'.name = t.name → t' = t := by
      intro t' ht' he
      exact List.inj_on_of_nodup_map hnodup' ht' ht he
    have hcl : (tokens.map lightDeclLine).countP (fun l => isDeclOf t.name l) = 1 := by
      rw [List.countP_map]
      have h1 : tokens.countP ((fun l => isDeclOf t.name l) ∘ lightDeclLine) =
          tokens.countP (fun t' => t'.name == t.name) := by
        apply List.countP_congr
        intro t' ht'
        simp only [Function.comp_apply, beq_iff_eq]
        rw [isDeclOf_lightDeclLine t.name t' htc (hnc t' ht')]
        exact eq_comm
      rw [h1]
      have h2 : tokens.countP (fun t' => t'.name == t.name) =
          List.count t.name (tokens.map ColorToken.name) :=
        (List.countP_map (fun x => x == t.name) ColorToken.name tokens).symm
      rw [h2]
      exact List.count_eq_one_of_mem hnodup' (List.mem_map_of_mem ColorToken.name ht)
    have hcd : (tokens.map darkDeclLine).countP (fun l => isDeclOf t.name l) = 1 := by
      rw [List.countP_map]
      have h1 : tokens.countP ((fun l => isDeclOf t.name l) ∘ darkDeclLine) =
          tokens.countP (fun t' => t'.name == t.name) := by
        apply List.countP_congr
        intro t' ht'
        simp only [Function.comp_apply, beq_iff_eq]
        rw [isDeclOf_darkDeclLine t.name t' htc (hnc t' ht')]
        exact eq_comm
      rw [h1]
      have h2 : tokens.countP (fun t' => t'.name == t.name) =
          List.count t.name (tokens.map ColorToken.name) :=
        (List.countP_map (fun x => x == t.name) ColorToken.name tokens).symm
      rw [h2]
      exact List.count_eq_one_of_mem hnodup' (List.mem_map_of_mem ColorToken.name ht)
    refine ⟨hcl, ?_, hcd, ?_⟩
    · intro l hl hdecl
      obtain ⟨t', ht', rfl⟩ := List.mem_map.mp hl
      have heq : t.name = t'.name :=
        (isDeclOf_lightDeclLine t.name t' htc (hnc t' ht')).mp hdecl
      rw [hinj t' ht' heq.symm]
    · intro l hl hdecl
      obtain ⟨t', ht', rfl⟩ := List.mem_map.mp hl
      have heq : t.name = t'.name :=
        (isDeclOf_darkDeclLine t.name t' htc (hnc t' ht')).mp hdecl
      rw [hinj t' ht' heq.symm]

/-- Witness for C7 on the tokens imported from the documented
sample document. -/
theorem generateCSS_one_decl_per_token_witness :
    ((tokenNames (parseTokenData sampleImportDoc)).Nodup ∧
      (∀ t ∈ parseTokenData sampleImportDoc, ':' ∉ t.name.data)) ∧
    ∀ t ∈ parseTokenData sampleImportDoc,
      ((parseTokenData sampleImportDoc).map lightDeclLine).countP
        (fun l => isDeclOf t.name l) = 1 ∧
      (∀ l ∈ (parseTokenData sampleImportDoc).map lightDeclLine,
        isDeclOf t.name l = true → l = lightDeclLine t) ∧
      ((parseTokenData sampleImportDoc).map darkDeclLine).countP
        (fun l => isDeclOf t.name l) = 1 ∧
      (∀ l ∈ (parseTokenData sampleImportDoc).map darkDeclLine,
        isDeclOf t.name l = true → l = darkDeclLine t) :=
  ⟨⟨by decide, by decide⟩,
    (generateCSS_one_decl_per_token (parseTokenData sampleImportDoc)
      (by decide) (by decide)).2⟩

/-! ## C8, C9, C10, C1: import, uniqueness, parser passes, apply loop -/

/-- C8: for every upload outcome, handleFile either delivers the whole
nonempty parsed token list with no error set, or delivers nothing and sets
exactly one error message; the import callback is never invoked on the
failure path. -/
theorem handleFile_atomic (input : Except String TokenData) :
    (∃ d, input = Except.ok d ∧ parseTokenData d ≠ [] ∧
      handleFile input = { imported := some (parseTokenData d), error := none }) ∨
    ((handleFile input).imported = none ∧ ∃ msg, (handleFile input).error = some msg) := by
  cases input with
  | error e => exact Or.inr ⟨rfl, e, rfl⟩
  | ok d =>
    by_cases h : ((parseTokenData d).length == 0) = true
    · right
      show (if ((parseTokenData d).length == 0) = true then
          ({ imported := none, error := some noTokensMsg } : HandleFileResult)
          else { imported := some (parseTokenData d), error := none }).imported = none ∧
        ∃ msg, (if ((parseTokenData d).length == 0) = true then
          ({ imported := none, error := some noTokensMsg } : HandleFileResult)
          else { imported := some (parseTokenData d), error := none }).error = some msg
      rw [if_pos h]
      exact ⟨rfl, noTokensMsg, rfl⟩
    · left
      refine ⟨d, rfl, ?_, ?_⟩
      · intro hnil
        apply h
        rw [hnil]
        rfl
      · show (if ((parseTokenData d).length == 0) = true then
            ({ imported := none, error := some noTokensMsg } : HandleFileResult)
            else { imported := some (parseTokenData d), error := none }) =
          { imported := some (parseTokenData d), error := none }
        rw [if_neg h]

/-- C9 (amended): the per-token edit of the token grid preserves the name
list exactly, hence preserves name uniqueness. Import does not establish
the uniqueness invariant; see the counterexample below. -/
theorem handleTokenUpdate_preserves_names (tokens : List ColorToken) (u : ColorToken) :
    tokenNames (handleTokenUpdate tokens u) = tokenNames tokens ∧
      ((tokenNames tokens).Nodup → (tokenNames (handleTokenUpdate tokens u)).Nodup) := by
  have h : tokenNames (handleTokenUpdate tokens u) = tokenNames tokens := by
    unfold tokenNames handleTokenUpdate
    rw [List.map_map]
    apply List.map_congr_left
    intro t _
    by_cases hn : (t.name == u.name) = true
    · have he : t.name = u.name := by simpa using hn
      simp [Function.comp, hn, he]
    · have hn' : (t.name == u.name) = false := by
        revert hn
        cases (t.name == u.name) <;> simp
      simp [Function.comp, hn']
  exact ⟨h, fun hnd => h ▸ hnd⟩

/-- Witness for C9 on the sample tokens with an edited Primary. -/
theorem handleTokenUpdate_preserves_names_witness :
    tokenNames (handleTokenUpdate (parseTokenData sampleImportDoc) editedPrimaryToken) =
      tokenNames (parseTokenData sampleImportDoc) ∧
      (tokenNames (handleTokenUpdate (parseTokenData sampleImportDoc)
        editedPrimaryToken)).Nodup :=
  ⟨(handleTokenUpdate_preserves_names (parseTokenData sampleImportDoc) editedPrimaryToken).1,
    (handleTokenUpdate_preserves_names (parseTokenData sampleImportDoc)
      editedPrimaryToken).2 (by decide)⟩

/-- Counterexample to C9 as stated: importing a document whose colors array
repeats the name primary produces a token list with duplicate names, so the
importer does not preserve the uniqueness invariant. -/
theorem parseTokenData_duplicate_names :
    tokenNames (parseTokenData dupNameDoc) = ["primary", "primary"] ∧
      ¬ (tokenNames (parseTokenData dupNameDoc)).Nodup := by
  constructor
  · decide
  · decide

theorem foldl_guarded_push {α β : Type} (keep : α → Bool) (mk : α → β) (l : List α) :
    ∀ (acc : List β),
      l.foldl (fun acc e => if keep e then acc ++ [mk e] else acc) acc =
        acc ++ (l.filter keep).map mk := by
  induction l with
  | nil =>
    intro acc
    simp
  | cons e rest ih =>
    intro acc
    rw [List.foldl_cons]
    by_cases hk : keep e = true
    · rw [if_pos hk, ih, List.filter_cons_of_pos hk]
      simp
    · rw [if_neg hk, ih, List.filter_cons_of_neg (by simpa using hk)]

/-- C10: the parser is the colors pass followed unconditionally by the
legacy pass: the colors pass is exactly the filter keeping entries with
truthy light and non-null dark (the rest are silently dropped), and every
legacy-shaped top-level field other than colors and text with truthy light
and dark contributes its token even when a colors array is present. -/
theorem parseTokenData_unconditional_legacy :
    (∀ d : TokenData, parseTokenData d =
      (match getColorsArray d with
        | some entries => colorsPass entries
        | none => []) ++ legacyPass d.fields) ∧
    (∀ entries : List ColorsEntry,
      colorsPass entries = (entries.filter keepColorsEntry).map mkColorsToken) ∧
    (∀ (d : TokenData) (k : String) (o1 o2 : Option String),
      (k, ImportValue.legacyObj o1 o2) ∈ d.fields → truthyStr o1 = true →
      truthyStr o2 = true → k ≠ "colors" → k ≠ "text" →
      mkLegacyToken k (ImportValue.legacyObj o1 o2) ∈ parseTokenData d) := by
  have hleg : ∀ fields : List (String × ImportValue),
      legacyPass fields = (fields.filter (fun p => keepLegacyField p.1 p.2)).map
        (fun p => mkLegacyToken p.1 p.2) := by
    intro fields
    unfold legacyPass
    rw [foldl_guarded_push (fun p : String × ImportValue => keepLegacyField p.1 p.2)
      (fun p : String × ImportValue => mkLegacyToken p.1 p.2) fields []]
    rfl
  refine ⟨fun d => rfl, ?_, ?_⟩
  · intro entries
    unfold colorsPass
    rw [foldl_guarded_push keepColorsEntry mkColorsToken entries []]
    rfl
  · intro d k o1 o2 hmem h1 h2 hc ht
    have hkeep : keepLegacyField k (ImportValue.legacyObj o1 o2) = true := by
      show (truthyStr o1 && truthyStr o2 && decide (k ≠ "colors") && decide (k ≠ "text")) = true
      rw [h1, h2]
      simp [hc, ht]
    unfold parseTokenData
    apply List.mem_append_right
    rw [hleg d.fields]
    apply List.mem_map.mpr
    refine ⟨(k, ImportValue.legacyObj o1 o2), ?_, rfl⟩
    exact List.mem_filter.mpr ⟨hmem, hkeep⟩

/-- Witness for C10: a document with both formats produces the kept colors
entry and the legacy token, and the null-dark entry is dropped. -/
theorem parseTokenData_unconditional_legacy_witness :
    ((("brand-extra", ImportValue.legacyObj (some "#aaaaaa") (some "#bbbbbb")) ∈
        mixedImportDoc.fields) ∧
      truthyStr (some "#aaaaaa") = true ∧ truthyStr (some "#bbbbbb") = true) ∧
    mkLegacyToken "brand-extra" (ImportValue.legacyObj (some "#aaaaaa") (some "#bbbbbb")) ∈
      parseTokenData mixedImportDoc ∧
    parseTokenData mixedImportDoc =
      [ { name := "Primary", light := "#111111", dark := "#222222", category := some "Brand" },
        { name := "brand-extra", light := "#aaaaaa", dark := "#bbbbbb",
          category := some "Other" } ] :=
  ⟨⟨by decide, by decide, by decide⟩,
    parseTokenData_unconditional_legacy.2.2 mixedImportDoc "brand-extra"
      (some "#aaaaaa") (some "#bbbbbb") (by decide) (by decide) (by decide)
      (by decide) (by decide),
    by decide⟩

theorem applyLoop_abort (fails : String → Bool) (existingNames : List String)
    (bad : ColorToken) (post : List ColorToken) (hbad : fails (styleName bad) = true) :
    ∀ (pre : List ColorToken), (∀ t ∈ pre, fails (styleName t) = false) →
      applyLoop fails existingNames (pre ++ bad :: post) =
        (pre.map (fun t => if existingNames.contains (styleName t) then
            HostEvent.updated (styleName t) t.light t.dark
          else HostEvent.created (styleName t) t.light t.dark) ++
            [HostEvent.threw (styleName bad)], true) := by
  intro pre
  induction pre with
  | nil =>
    intro _
    show applyLoop fails existingNames (bad :: post) = _
    unfold applyLoop
    rw [hbad]
    simp
  | cons t rest ih =>
    intro hpre
    have hht : fails (styleName t) = false := hpre t (List.mem_cons_self t rest)
    rw [List.cons_append]
    show applyLoop fails existingNames (t :: (rest ++ bad :: post)) = _
    unfold applyLoop
    rw [hht]
    simp only [Bool.false_eq_true, if_false]
    rw [ih (fun s hs => hpre s (List.mem_cons_of_mem t hs))]
    simp

/-- C1 (amended): when a host call fails mid-loop, the styles already
applied before the failure are kept (no rollback) and exactly one aggregate
error notification is shown, but the loop aborts: the try block wraps the
whole for-loop, so the remaining styles are not attempted. -/
theorem applyStylesToFramer_aborts_midloop (fails : String → Bool)
    (existingNames : List String) (pre : List ColorToken) (bad : ColorToken)
    (post : List ColorToken) (hpre : ∀ t ∈ pre, fails (styleName t) = false)
    (hbad : fails (styleName bad) = true) :
    applyStylesToFramer fails existingNames true (pre ++ bad :: post) =
      { events := pre.map (fun t => if existingNames.contains (styleName t) then
            HostEvent.updated (styleName t) t.light t.dark
          else HostEvent.created (styleName t) t.light t.dark) ++
          [HostEvent.threw (styleName bad)],
        notifications := [NotifyVariant.error] } := by
  unfold applyStylesToFramer
  have hne : ((pre ++ bad :: post).length == 0) = false := by
    simp
  rw [show (!true || (pre ++ bad :: post).length == 0) = false by rw [hne]; rfl]
  simp only [Bool.false_eq_true, if_false]
  rw [applyLoop_abort fails existingNames bad post hbad pre hpre]
  rfl

/-- Counterexample to C1 as stated: with three tokens and a failing call on
the second style, no host interaction concerns the third style, refuting
that the remaining styles are still attempted. -/
theorem applyStyles_midloop_not_attempted :
    applyStylesToFramer (fun n => n == "b") [] true [tokA, tokB, tokC] =
      { events := [HostEvent.created "Brand/a" "#111111" "#222222", HostEvent.threw "b"],
        notifications := [NotifyVariant.error] } ∧
      ¬ ∃ ev ∈ (applyStylesToFramer (fun n => n == "b") [] true [tokA, tokB, tokC]).events,
          ev.styleOf = styleName tokC := by
  constructor
  · decide
  · decide

/-- Witness for C1 at a concrete three-token list failing on the second. -/
theorem applyStylesToFramer_aborts_midloop_witness :
    (∀ t ∈ [tokA], (fun n => n == "b") (styleName t) = false) ∧
      applyStylesToFramer (fun n => n == "b") [] true ([tokA] ++ tokB :: [tokC]) =
        { events := [tokA].map (fun t => if (([] : List String).contains (styleName t)) then
              HostEvent.updated (styleName t) t.light t.dark
            else HostEvent.created (styleName t) t.light t.dark) ++
            [HostEvent.threw (styleName tokB)],
          notifications := [NotifyVariant.error] } :=
  ⟨by decide, applyStylesToFramer_aborts_midloop (fun n => n == "b") [] [tokA] tokB [tokC]
    (by decide) (by decide)⟩
